import Mathlib

/-!
Verification of the successive-convexification trajectory optimizer
(src/src/main.cpp) against its natural-language specification.

The single source file contains:
- class DiscretizationODE (lines 27-77): the augmented-ODE right-hand side
  used to discretize the linearized dynamics over one interval;
- main (lines 79-304): solver setup (variables, dynamics equalities,
  virtual-control cone, time trust region), the per-interval integration
  and block extraction, and the fixed-count successive-convexification loop.

Shallow embedding conventions:
- doubles are modelled as real numbers;
- the Eigen augmented matrix V (n_states rows, 3 + n_states + 2 n_inputs
  columns) is modelled as a function from row index and a tagged column
  index Col: tag x is column 0, tag phi j covers columns 1..n_states,
  tags u0 j and u1 j the two n_inputs-wide sensitivity blocks, tags sig
  and z the last two columns, in the exact column order of the source;
- the external dynamics collaborator (active_model.hpp, not under src/)
  is a structure of its interface functions as specified in section 6 of
  the spec;
- boost odeint runge_kutta_dopri5 is modelled as the standard explicit
  Dormand-Prince 5(4) step; the adaptive controller is abstracted as an
  arbitrary list of (time, stepsize) pairs over which steps are folded.
-/

set_option autoImplicit false

noncomputable section

open scoped Classical

/-- Tagged column index for the augmented state matrix
`Eigen::Matrix<double, n_states, 3 + n_states + 2*n_inputs>`
of DiscretizationODE (main.cpp lines 35-36). -/
inductive Col (n m : ℕ) where
  | x : Col n m
  | phi : Fin n → Col n m
  | u0 : Fin m → Col n m
  | u1 : Fin m → Col n m
  | sig : Col n m
  | z : Col n m

/-- The augmented state type `DiscretizationODE::state_type` (main.cpp line 36). -/
abbrev StateType (n m : ℕ) : Type := Fin n → Col n m → ℝ

/-- The dynamics collaborator interface (active_model.hpp is not under src/;
fields are the member functions used by main.cpp, per section 6 of the spec). -/
structure Model (n m : ℕ) where
  ode : (Fin n → ℝ) → (Fin m → ℝ) → (Fin n → ℝ)
  state_jacobian : (Fin n → ℝ) → (Fin m → ℝ) → Matrix (Fin n) (Fin n) ℝ
  control_jacobian : (Fin n → ℝ) → (Fin m → ℝ) → Matrix (Fin n) (Fin m) ℝ
  init_X : ℕ → Fin n → ℝ
  init_U : ℕ → Fin m → ℝ
  total_time_guess : ℝ

/-- Column 0 of the augmented state: the propagated state x (main.cpp line 53). -/
def colX {n m : ℕ} (V : StateType n m) : Fin n → ℝ := fun i => V i Col.x

/-- Columns 1..n_states: the state-transition matrix block Phi_A_xi
(main.cpp line 64). -/
def phiBlock {n m : ℕ} (V : StateType n m) : Matrix (Fin n) (Fin n) ℝ :=
  Matrix.of fun i j => V i (Col.phi j)

/-- The control-start sensitivity block (first n_inputs-wide block). -/
def u0Block {n m : ℕ} (V : StateType n m) : Matrix (Fin n) (Fin m) ℝ :=
  Matrix.of fun i j => V i (Col.u0 j)

/-- The control-end sensitivity block (second n_inputs-wide block). -/
def u1Block {n m : ℕ} (V : StateType n m) : Matrix (Fin n) (Fin m) ℝ :=
  Matrix.of fun i j => V i (Col.u1 j)

/-- The sigma sensitivity column. -/
def sigCol {n m : ℕ} (V : StateType n m) : Fin n → ℝ := fun i => V i Col.sig

/-- The bias sensitivity column. -/
def zCol {n m : ℕ} (V : StateType n m) : Fin n → ℝ := fun i => V i Col.z

/-- First-order-held control `u_t + t / dt * (u_t1 - u_t)` (main.cpp line 54). -/
def fohControl {m : ℕ} (u_t u_t1 : Fin m → ℝ) (dt t : ℝ) : Fin m → ℝ :=
  fun i => u_t i + t / dt * (u_t1 i - u_t i)

/-- The augmented-ODE right-hand side, `DiscretizationODE::operator()`
(main.cpp lines 51-76), translated block by block in source order. -/
def DiscretizationODE.deriv {n m : ℕ} (md : Model n m) (u_t u_t1 : Fin m → ℝ)
    (sigma dt : ℝ) (V : StateType n m) (t : ℝ) : StateType n m :=
  let x : Fin n → ℝ := colX V
  let u : Fin m → ℝ := fohControl u_t u_t1 dt t
  let alpha : ℝ := t / dt
  let beta : ℝ := 1 - alpha
  let A_bar : Matrix (Fin n) (Fin n) ℝ := sigma • md.state_jacobian x u
  let B_bar : Matrix (Fin n) (Fin m) ℝ := sigma • md.control_jacobian x u
  let f : Fin n → ℝ := md.ode x u
  let Phi_A_xi : Matrix (Fin n) (Fin n) ℝ := phiBlock V
  let Phi_A_xi_inverse : Matrix (Fin n) (Fin n) ℝ := Phi_A_xi⁻¹
  fun i c =>
    match c with
    | Col.x => sigma * f i
    | Col.phi j => (A_bar * Phi_A_xi) i j
    | Col.u0 j => (Phi_A_xi_inverse * B_bar) i j * alpha
    | Col.u1 j => (Phi_A_xi_inverse * B_bar) i j * beta
    | Col.sig => Phi_A_xi_inverse.mulVec f i
    | Col.z => Phi_A_xi_inverse.mulVec (-A_bar.mulVec x - B_bar.mulVec u) i

/-- Claim C1: for every augmented state V, every t in the interval from 0 to dt,
with first-order-held control u, alpha = t / dt and beta = 1 - alpha, the
derivative function returns exactly the six blocks
d(state)/dt = sigma * f, dPhi/dt = (sigma * dfdx) * Phi,
d(control-start sens)/dt = alpha * (Phi inverse * (sigma * dfdu)),
d(control-end sens)/dt = beta * (Phi inverse * (sigma * dfdu)),
d(sigma sens)/dt = Phi inverse * f, and
d(bias sens)/dt = Phi inverse * (-(sigma * dfdx) x - (sigma * dfdu) u),
with f and the Jacobians evaluated at (x, u). -/
theorem discretizationODE_deriv_blocks {n m : ℕ} (md : Model n m)
    (u_t u_t1 : Fin m → ℝ) (sigma dt : ℝ) (V : StateType n m) (t : ℝ)
    (ht0 : 0 ≤ t) (ht1 : t ≤ dt) :
    colX (DiscretizationODE.deriv md u_t u_t1 sigma dt V t) =
      sigma • md.ode (colX V) (fohControl u_t u_t1 dt t)
    ∧ phiBlock (DiscretizationODE.deriv md u_t u_t1 sigma dt V t) =
      (sigma • md.state_jacobian (colX V) (fohControl u_t u_t1 dt t)) * phiBlock V
    ∧ u0Block (DiscretizationODE.deriv md u_t u_t1 sigma dt V t) =
      (t / dt) • ((phiBlock V)⁻¹ *
        (sigma • md.control_jacobian (colX V) (fohControl u_t u_t1 dt t)))
    ∧ u1Block (DiscretizationODE.deriv md u_t u_t1 sigma dt V t) =
      (1 - t / dt) • ((phiBlock V)⁻¹ *
        (sigma • md.control_jacobian (colX V) (fohControl u_t u_t1 dt t)))
    ∧ sigCol (DiscretizationODE.deriv md u_t u_t1 sigma dt V t) =
      (phiBlock V)⁻¹.mulVec (md.ode (colX V) (fohControl u_t u_t1 dt t))
    ∧ zCol (DiscretizationODE.deriv md u_t u_t1 sigma dt V t) =
      (phiBlock V)⁻¹.mulVec
        (-(sigma • md.state_jacobian (colX V) (fohControl u_t u_t1 dt t)).mulVec (colX V)
         - (sigma • md.control_jacobian (colX V) (fohControl u_t u_t1 dt t)).mulVec
             (fohControl u_t u_t1 dt t)) := by
  refine ⟨?_, ?_, ?_, ?_, ?_, ?_⟩
  · funext i
    simp [colX, DiscretizationODE.deriv]
  · ext i j
    simp [phiBlock, DiscretizationODE.deriv]
  · ext i j
    simp [u0Block, DiscretizationODE.deriv, Matrix.smul_apply]
    ring
  · ext i j
    simp [u1Block, DiscretizationODE.deriv, Matrix.smul_apply]
    ring
  · funext i
    simp [sigCol, DiscretizationODE.deriv]
  · funext i
    simp [zCol, DiscretizationODE.deriv]

/-- A concrete dynamics collaborator used to instantiate theorems with
hypotheses at explicit inputs (one state, one input, zero dynamics). -/
def zeroModel : Model 1 1 where
  ode := fun _ _ => 0
  state_jacobian := fun _ _ => 0
  control_jacobian := fun _ _ => 0
  init_X := fun _ _ => 0
  init_U := fun _ _ => 0
  total_time_guess := 1

/-- A concrete augmented state (all entries zero) for witnesses. -/
def zeroV : StateType 1 1 := fun _ _ => 0

/-- A concrete control vector (zero) for witnesses. -/
def zeroU : Fin 1 → ℝ := fun _ => 0

theorem discretizationODE_deriv_blocks_witness :
    (0 : ℝ) ≤ 0 ∧ (0 : ℝ) ≤ 1 ∧
    (colX (DiscretizationODE.deriv zeroModel zeroU zeroU 1 1 zeroV 0) =
      (1 : ℝ) • zeroModel.ode (colX zeroV) (fohControl zeroU zeroU 1 0)
    ∧ phiBlock (DiscretizationODE.deriv zeroModel zeroU zeroU 1 1 zeroV 0) =
      ((1 : ℝ) • zeroModel.state_jacobian (colX zeroV)
        (fohControl zeroU zeroU 1 0)) * phiBlock zeroV
    ∧ u0Block (DiscretizationODE.deriv zeroModel zeroU zeroU 1 1 zeroV 0) =
      ((0 : ℝ) / 1) • ((phiBlock zeroV)⁻¹ *
        ((1 : ℝ) • zeroModel.control_jacobian (colX zeroV)
          (fohControl zeroU zeroU 1 0)))
    ∧ u1Block (DiscretizationODE.deriv zeroModel zeroU zeroU 1 1 zeroV 0) =
      (1 - (0 : ℝ) / 1) • ((phiBlock zeroV)⁻¹ *
        ((1 : ℝ) • zeroModel.control_jacobian (colX zeroV)
          (fohControl zeroU zeroU 1 0)))
    ∧ sigCol (DiscretizationODE.deriv zeroModel zeroU zeroU 1 1 zeroV 0) =
      (phiBlock zeroV)⁻¹.mulVec (zeroModel.ode (colX zeroV)
        (fohControl zeroU zeroU 1 0))
    ∧ zCol (DiscretizationODE.deriv zeroModel zeroU zeroU 1 1 zeroV 0) =
      (phiBlock zeroV)⁻¹.mulVec
        (-((1 : ℝ) • zeroModel.state_jacobian (colX zeroV)
            (fohControl zeroU zeroU 1 0)).mulVec (colX zeroV)
         - ((1 : ℝ) • zeroModel.control_jacobian (colX zeroV)
            (fohControl zeroU zeroU 1 0)).mulVec
              (fohControl zeroU zeroU 1 0))) :=
  ⟨le_refl 0, zero_le_one,
    discretizationODE_deriv_blocks zeroModel zeroU zeroU 1 1 zeroV 0
      (le_refl 0) zero_le_one⟩

/-- One step of the explicit Dormand-Prince 5(4) method, the scheme of
`boost::numeric::odeint::runge_kutta_dopri5` used at main.cpp lines 115 and
247, with the standard tableau; the seventh stage only feeds the embedded
error estimate and does not enter the accepted fifth-order update. -/
def dopri5Step {S : Type} [AddCommGroup S] [Module ℝ S]
    (f : S → ℝ → S) (V : S) (t h : ℝ) : S :=
  let k1 := f V t
  let k2 := f (V + h • ((1/5 : ℝ) • k1)) (t + 1/5*h)
  let k3 := f (V + h • ((3/40 : ℝ) • k1 + (9/40 : ℝ) • k2)) (t + 3/10*h)
  let k4 := f (V + h • ((44/45 : ℝ) • k1 - (56/15 : ℝ) • k2 + (32/9 : ℝ) • k3))
    (t + 4/5*h)
  let k5 := f (V + h • ((19372/6561 : ℝ) • k1 - (25360/2187 : ℝ) • k2
    + (64448/6561 : ℝ) • k3 - (212/729 : ℝ) • k4)) (t + 8/9*h)
  let k6 := f (V + h • ((9017/3168 : ℝ) • k1 - (355/33 : ℝ) • k2
    + (46732/5247 : ℝ) • k3 + (49/176 : ℝ) • k4 - (5103/18656 : ℝ) • k5)) (t + h)
  V + h • ((35/384 : ℝ) • k1 + (500/1113 : ℝ) • k3 + (125/192 : ℝ) • k4
    - (2187/6784 : ℝ) • k5 + (11/84 : ℝ) • k6)

/-- `integrate_adaptive` (main.cpp line 247) abstracted over the sequence of
(time, stepsize) pairs chosen by the adaptive controller: the accepted steps
are folded in order over the initial augmented state. -/
def integrateSteps {S : Type} [AddCommGroup S] [Module ℝ S]
    (f : S → ℝ → S) (steps : List (ℝ × ℝ)) (V0 : S) : S :=
  steps.foldl (fun V th => dopri5Step f V th.1 th.2) V0

/-- The freshly re-initialized augmented state of main.cpp lines 241-244:
`V.setZero(); V.col(0) = X.col(k); V.block(0,1).setIdentity();`. -/
def initAugState {n m : ℕ} (xk : Fin n → ℝ) : StateType n m := fun i c =>
  match c with
  | Col.x => xk i
  | Col.phi j => if i = j then 1 else 0
  | Col.u0 _ => 0
  | Col.u1 _ => 0
  | Col.sig => 0
  | Col.z => 0

/-- The per-interval affine model tuple (A_bar, B_bar, C_bar, Sigma_bar,
z_bar), main.cpp lines 107-111. -/
@[ext]
structure AffineModel (n m : ℕ) where
  A : Matrix (Fin n) (Fin n) ℝ
  B : Matrix (Fin n) (Fin m) ℝ
  C : Matrix (Fin n) (Fin m) ℝ
  Sigma : Fin n → ℝ
  z : Fin n → ℝ

/-- One interval of the discretization loop, main.cpp lines 240-254: build the
fresh augmented state from the reference state at the interval start, integrate
the augmented ODE from 0 to dt, and extract
A = Phi, B = A * (control-start sens), C = A * (control-end sens),
Sigma = A * (sigma sens), z = A * (bias sens). -/
def discretizeInterval {n m : ℕ} (md : Model n m) (uk uk1 : Fin m → ℝ)
    (sigma dt : ℝ) (steps : List (ℝ × ℝ)) (xk : Fin n → ℝ) : AffineModel n m :=
  let V := integrateSteps (DiscretizationODE.deriv md uk uk1 sigma dt) steps
    (initAugState xk)
  let A := phiBlock V
  AffineModel.mk A (A * u0Block V) (A * u1Block V)
    (A.mulVec (sigCol V)) (A.mulVec (zCol V))

/-- The whole k-loop of main.cpp lines 240-254: interval k is processed from
the reference state at node k and the bracketing controls at nodes k, k+1. -/
def discretizeAll {n m : ℕ} (md : Model n m) (X : ℕ → Fin n → ℝ)
    (U : ℕ → Fin m → ℝ) (sigma dt : ℝ) (steps : ℕ → List (ℝ × ℝ))
    (k : ℕ) : AffineModel n m :=
  discretizeInterval md (U k) (U (k+1)) sigma dt (steps k) (X k)

lemma colX_initAugState {n m : ℕ} (xk : Fin n → ℝ) :
    colX (@initAugState n m xk) = xk := rfl

lemma phiBlock_initAugState {n m : ℕ} (xk : Fin n → ℝ) :
    phiBlock (@initAugState n m xk) = 1 := by
  ext i j
  simp [phiBlock, initAugState, Matrix.one_apply]

lemma u0Block_initAugState {n m : ℕ} (xk : Fin n → ℝ) :
    u0Block (@initAugState n m xk) = 0 := rfl

lemma u1Block_initAugState {n m : ℕ} (xk : Fin n → ℝ) :
    u1Block (@initAugState n m xk) = 0 := rfl

lemma sigCol_initAugState {n m : ℕ} (xk : Fin n → ℝ) :
    sigCol (@initAugState n m xk) = 0 := rfl

lemma zCol_initAugState {n m : ℕ} (xk : Fin n → ℝ) :
    zCol (@initAugState n m xk) = 0 := rfl

/-- Claim C2: each interval integrates from a freshly re-initialized augmented
state (state column equal to the reference state at the interval start, STM
block the identity, all four sensitivity blocks zero); the returned tuple is
A = Phi(dt), B = A * (control-start sens), C = A * (control-end sens),
Sigma = A * (sigma sens), z = A * (bias sens); and the result of interval k
depends only on the reference state at node k, the controls at nodes k and
k+1, sigma, dt and the accepted steps, so nothing is carried over from a
previous interval. -/
theorem discretize_interval_fresh_and_extract {n m : ℕ} (md : Model n m)
    (X X' : ℕ → Fin n → ℝ) (U U' : ℕ → Fin m → ℝ) (sigma dt : ℝ)
    (steps : ℕ → List (ℝ × ℝ)) (k : ℕ)
    (hX : X' k = X k) (hU : U' k = U k) (hU1 : U' (k+1) = U (k+1)) :
    (colX (@initAugState n m (X k)) = X k
      ∧ phiBlock (@initAugState n m (X k)) = 1
      ∧ u0Block (@initAugState n m (X k)) = 0
      ∧ u1Block (@initAugState n m (X k)) = 0
      ∧ sigCol (@initAugState n m (X k)) = 0
      ∧ zCol (@initAugState n m (X k)) = 0)
    ∧ (∃ Vf, Vf = integrateSteps
          (DiscretizationODE.deriv md (U k) (U (k+1)) sigma dt) (steps k)
          (initAugState (X k))
        ∧ discretizeAll md X U sigma dt steps k =
          AffineModel.mk (phiBlock Vf) (phiBlock Vf * u0Block Vf)
            (phiBlock Vf * u1Block Vf) ((phiBlock Vf).mulVec (sigCol Vf))
            ((phiBlock Vf).mulVec (zCol Vf)))
    ∧ discretizeAll md X U sigma dt steps k =
      discretizeAll md X' U' sigma dt steps k := by
  refine ⟨⟨colX_initAugState _, phiBlock_initAugState _, u0Block_initAugState _,
    u1Block_initAugState _, sigCol_initAugState _, zCol_initAugState _⟩,
    ⟨_, rfl, rfl⟩, ?_⟩
  simp only [discretizeAll, hX, hU, hU1]

/-- A concrete all-zero trajectory (usable as states or inputs with one state
and one input) for witnesses. -/
def zeroTraj1 : ℕ → Fin 1 → ℝ := fun _ _ => 0

/-- An empty accepted-step sequence for every interval, for witnesses. -/
def noSteps : ℕ → List (ℝ × ℝ) := fun _ => []

theorem discretize_interval_fresh_and_extract_witness :
    (zeroTraj1 0 = zeroTraj1 0) ∧
    ((colX (@initAugState 1 1 (zeroTraj1 0)) = zeroTraj1 0
      ∧ phiBlock (@initAugState 1 1 (zeroTraj1 0)) = 1
      ∧ u0Block (@initAugState 1 1 (zeroTraj1 0)) = 0
      ∧ u1Block (@initAugState 1 1 (zeroTraj1 0)) = 0
      ∧ sigCol (@initAugState 1 1 (zeroTraj1 0)) = 0
      ∧ zCol (@initAugState 1 1 (zeroTraj1 0)) = 0)
    ∧ (∃ Vf, Vf = integrateSteps
          (DiscretizationODE.deriv zeroModel (zeroTraj1 0) (zeroTraj1 1) 1 1)
          (noSteps 0) (initAugState (zeroTraj1 0))
        ∧ discretizeAll zeroModel zeroTraj1 zeroTraj1 1 1 noSteps 0 =
          AffineModel.mk (phiBlock Vf) (phiBlock Vf * u0Block Vf)
            (phiBlock Vf * u1Block Vf) ((phiBlock Vf).mulVec (sigCol Vf))
            ((phiBlock Vf).mulVec (zCol Vf)))
    ∧ discretizeAll zeroModel zeroTraj1 zeroTraj1 1 1 noSteps 0 =
      discretizeAll zeroModel zeroTraj1 zeroTraj1 1 1 noSteps 0) :=
  ⟨rfl, discretize_interval_fresh_and_extract zeroModel
    zeroTraj1 zeroTraj1 zeroTraj1 zeroTraj1 1 1 noSteps 0 rfl rfl rfl⟩

lemma deriv_zero_of_static {n m : ℕ} (md : Model n m)
    (h1 : ∀ x u, md.ode x u = 0) (h2 : ∀ x u, md.state_jacobian x u = 0)
    (h3 : ∀ x u, md.control_jacobian x u = 0) (u_t u_t1 : Fin m → ℝ)
    (sigma dt : ℝ) (V : StateType n m) (t : ℝ) :
    DiscretizationODE.deriv md u_t u_t1 sigma dt V t = 0 := by
  funext i c
  cases c <;>
    simp [DiscretizationODE.deriv, h1, h2, h3, Matrix.zero_mul, Matrix.mul_zero,
      Matrix.mulVec_zero, Matrix.zero_mulVec]

lemma dopri5Step_of_zero {S : Type} [AddCommGroup S] [Module ℝ S]
    (f : S → ℝ → S) (hf : ∀ V t, f V t = 0) (V : S) (t h : ℝ) :
    dopri5Step f V t h = V := by
  simp [dopri5Step, hf]

lemma integrateSteps_of_zero {S : Type} [AddCommGroup S] [Module ℝ S]
    (f : S → ℝ → S) (hf : ∀ V t, f V t = 0) (steps : List (ℝ × ℝ)) (V0 : S) :
    integrateSteps f steps V0 = V0 := by
  induction steps generalizing V0 with
  | nil => rfl
  | cons s rest ih =>
    show integrateSteps f rest (dopri5Step f V0 s.1 s.2) = V0
    rw [dopri5Step_of_zero f hf]
    exact ih V0

/-- Claim C7: if the dynamics collaborator is static (the ode and both
Jacobians return zero everywhere) then for any dt > 0, any sigma, and every
interval k the Integrator returns A = identity and B = C = Sigma = z = 0. -/
theorem static_dynamics_affine_identity {n m : ℕ} (md : Model n m)
    (h1 : ∀ x u, md.ode x u = 0) (h2 : ∀ x u, md.state_jacobian x u = 0)
    (h3 : ∀ x u, md.control_jacobian x u = 0)
    (X : ℕ → Fin n → ℝ) (U : ℕ → Fin m → ℝ) (sigma dt : ℝ) (hdt : 0 < dt)
    (steps : ℕ → List (ℝ × ℝ)) (k : ℕ) :
    discretizeAll md X U sigma dt steps k = AffineModel.mk 1 0 0 0 0 := by
  have hf : ∀ (V : StateType n m) (t : ℝ),
      DiscretizationODE.deriv md (U k) (U (k+1)) sigma dt V t = 0 :=
    fun V t => deriv_zero_of_static md h1 h2 h3 (U k) (U (k+1)) sigma dt V t
  show discretizeInterval md (U k) (U (k+1)) sigma dt (steps k) (X k) =
    AffineModel.mk 1 0 0 0 0
  unfold discretizeInterval
  rw [integrateSteps_of_zero _ hf]
  simp [phiBlock_initAugState, u0Block_initAugState, u1Block_initAugState,
    sigCol_initAugState, zCol_initAugState]

theorem static_dynamics_affine_identity_witness :
    (∀ (x : Fin 1 → ℝ) (u : Fin 1 → ℝ), zeroModel.ode x u = 0) ∧
    ((0 : ℝ) < 1) ∧
    discretizeAll zeroModel zeroTraj1 zeroTraj1 1 2 noSteps 1 =
      AffineModel.mk 1 0 0 0 0 :=
  ⟨fun _ _ => rfl, zero_lt_one,
    static_dynamics_affine_identity zeroModel (fun _ _ => rfl) (fun _ _ => rfl)
      (fun _ _ => rfl) zeroTraj1 zeroTraj1 1 2 two_pos noSteps 1⟩

/-- Euclidean norm of a stacked vector of scalars, the semantics of
`optimization_problem::norm2` second-order-cone left-hand sides
(EcosWrapper is not under src/; modelled from section 6 of the spec:
`add_cone_constraint(norm(expr_vector) <= expr)`). -/
def norm2 (v : List ℝ) : ℝ :=
  Real.sqrt (v.foldr (fun a s => a * a + s) 0)

/-- The parameter callback at main.cpp line 198. -/
def sigma_fn1 (sigma : ℝ) : ℝ := -sigma

/-- The parameter callback at main.cpp line 199. -/
def sigma_fn2 (sigma : ℝ) : ℝ := 0.5 + 0.5 * sigma * sigma

/-- The parameter callback at main.cpp line 200. -/
def sigma_fn3 (sigma : ℝ) : ℝ := sigma

/-- The parameter callback at main.cpp line 201. -/
def sigma_fn4 (sigma : ℝ) : ℝ := 0.5 - 0.5 * sigma * sigma

/-- The time-trust-region second-order-cone constraint built at main.cpp
lines 203-209, evaluated at values sigma0 (the reference), sigmaV (the sigma
variable) and DeltaSigma (the Delta_sigma variable). -/
def timeTrustRegionConstraint (sigma0 sigmaV DeltaSigma : ℝ) : Prop :=
  norm2 [sigma_fn1 sigma0 * sigmaV + (-0.5) * DeltaSigma + sigma_fn2 sigma0,
         (1.0) * sigmaV]
    ≤ sigma_fn3 sigma0 * sigmaV + (0.5) * DeltaSigma + sigma_fn4 sigma0

/-- Claim C4: for all real sigma, sigma0 and Delta_sigma, the second-order-cone
constraint built by the Builder holds if and only if the quadratic trust-region
bound (sigma - sigma0)^2 <= Delta_sigma holds. -/
theorem time_trust_region_soc_iff (sigmaV sigma0 DeltaSigma : ℝ) :
    timeTrustRegionConstraint sigma0 sigmaV DeltaSigma ↔
      (sigmaV - sigma0) ^ 2 ≤ DeltaSigma := by
  have hL : sigma_fn1 sigma0 * sigmaV + (-0.5) * DeltaSigma + sigma_fn2 sigma0 =
      -sigma0 * sigmaV - 0.5 * DeltaSigma + (0.5 + 0.5 * sigma0 * sigma0) := by
    simp [sigma_fn1, sigma_fn2]; ring
  have hR : sigma_fn3 sigma0 * sigmaV + (0.5) * DeltaSigma + sigma_fn4 sigma0 =
      sigma0 * sigmaV + 0.5 * DeltaSigma + (0.5 - 0.5 * sigma0 * sigma0) := by
    simp [sigma_fn3, sigma_fn4]
  set L : ℝ := -sigma0 * sigmaV - 0.5 * DeltaSigma + (0.5 + 0.5 * sigma0 * sigma0)
    with hLdef
  set R : ℝ := sigma0 * sigmaV + 0.5 * DeltaSigma + (0.5 - 0.5 * sigma0 * sigma0)
    with hRdef
  have hnorm : norm2 [sigma_fn1 sigma0 * sigmaV + (-0.5) * DeltaSigma +
      sigma_fn2 sigma0, (1.0) * sigmaV] = Real.sqrt (L * L + sigmaV * sigmaV) := by
    rw [hL]
    norm_num [norm2]
  have hdiff : R ^ 2 - L ^ 2 =
      DeltaSigma - (sigmaV - sigma0) ^ 2 + sigmaV * sigmaV := by
    rw [hLdef, hRdef]; ring
  constructor
  · intro h
    rw [timeTrustRegionConstraint, hnorm, hR] at h
    have harg : (0 : ℝ) ≤ L * L + sigmaV * sigmaV := by nlinarith [sq_nonneg L, sq_nonneg sigmaV]
    have hR0 : 0 ≤ R := le_trans (Real.sqrt_nonneg _) h
    have hsq : L * L + sigmaV * sigmaV ≤ R ^ 2 := by
      have h2 := Real.sq_sqrt harg
      nlinarith [h, Real.sqrt_nonneg (L * L + sigmaV * sigmaV)]
    nlinarith [hsq, hdiff]
  · intro h
    rw [timeTrustRegionConstraint, hnorm, hR]
    have hR0 : 0 ≤ R := by
      rw [hRdef]
      nlinarith [sq_nonneg (sigmaV - sigma0), sq_nonneg sigmaV, h]
    have hsq : L * L + sigmaV * sigmaV ≤ R ^ 2 := by nlinarith [hdiff, h]
    calc Real.sqrt (L * L + sigmaV * sigmaV)
        ≤ Real.sqrt (R ^ 2) := Real.sqrt_le_sqrt hsq
      _ = R := Real.sqrt_sq hR0

/-- One row of the linearized-dynamics equality expression built at main.cpp
lines 141-167: the AffineExpression accumulated for interval k and state row,
evaluated at an assignment of the variables X, U, sigma, nu (EcosWrapper is
not under src/; an AffineExpression is modelled by its value under an
assignment, per section 6 of the spec). -/
def dynamicsRowExpr {n m : ℕ} (A_bar : ℕ → Matrix (Fin n) (Fin n) ℝ)
    (B_bar C_bar : ℕ → Matrix (Fin n) (Fin m) ℝ)
    (Sigma_bar z_bar : ℕ → Fin n → ℝ)
    (Xv : ℕ → Fin n → ℝ) (Uv : ℕ → Fin m → ℝ) (sigmaV : ℝ)
    (nu : ℕ → Fin n → ℝ) (k : ℕ) (row : Fin n) : ℝ :=
  (-1 : ℝ) * Xv (k+1) row
    + (∑ c, A_bar k row c * Xv k c)
    + (∑ c, B_bar k row c * Uv k c)
    + (∑ c, C_bar k row c * Uv (k+1) c)
    + Sigma_bar k row * sigmaV
    + z_bar k row
    + (1 : ℝ) * nu k row

/-- The equality constraint `eq == 0.0` added at main.cpp line 167. -/
def dynamicsConstraint {n m : ℕ} (A_bar : ℕ → Matrix (Fin n) (Fin n) ℝ)
    (B_bar C_bar : ℕ → Matrix (Fin n) (Fin m) ℝ)
    (Sigma_bar z_bar : ℕ → Fin n → ℝ)
    (Xv : ℕ → Fin n → ℝ) (Uv : ℕ → Fin m → ℝ) (sigmaV : ℝ)
    (nu : ℕ → Fin n → ℝ) (k : ℕ) (row : Fin n) : Prop :=
  dynamicsRowExpr A_bar B_bar C_bar Sigma_bar z_bar Xv Uv sigmaV nu k row = 0

/-- Claim C3: the constraint built for interval k and each state row is exactly
the equality x(k+1) = A x(k) + B u(k) + C u(k+1) + Sigma sigma + z + nu(k);
and since the virtual-control slack nu is free in every such equality, for
every assignment of X, U and sigma there is a value of nu satisfying all the
dynamics equalities, so these constraints alone can never make the subproblem
infeasible. -/
theorem dynamics_equality_feasibility {n m : ℕ}
    (A_bar : ℕ → Matrix (Fin n) (Fin n) ℝ)
    (B_bar C_bar : ℕ → Matrix (Fin n) (Fin m) ℝ)
    (Sigma_bar z_bar : ℕ → Fin n → ℝ) :
    (∀ (Xv : ℕ → Fin n → ℝ) (Uv : ℕ → Fin m → ℝ) (sigmaV : ℝ)
        (nu : ℕ → Fin n → ℝ) (k : ℕ) (row : Fin n),
      dynamicsConstraint A_bar B_bar C_bar Sigma_bar z_bar Xv Uv sigmaV nu k row
        ↔ Xv (k+1) row =
            (∑ c, A_bar k row c * Xv k c)
            + (∑ c, B_bar k row c * Uv k c)
            + (∑ c, C_bar k row c * Uv (k+1) c)
            + Sigma_bar k row * sigmaV
            + z_bar k row
            + nu k row)
    ∧ (∀ (Xv : ℕ → Fin n → ℝ) (Uv : ℕ → Fin m → ℝ) (sigmaV : ℝ),
        ∃ nu : ℕ → Fin n → ℝ, ∀ (k : ℕ) (row : Fin n),
          dynamicsConstraint A_bar B_bar C_bar Sigma_bar z_bar Xv Uv sigmaV
            nu k row) := by
  constructor
  · intro Xv Uv sigmaV nu k row
    rw [dynamicsConstraint, dynamicsRowExpr]
    constructor
    · intro h; linarith
    · intro h; linarith
  · intro Xv Uv sigmaV
    refine ⟨fun k row => Xv (k+1) row
      - ((∑ c, A_bar k row c * Xv k c)
        + (∑ c, B_bar k row c * Uv k c)
        + (∑ c, C_bar k row c * Uv (k+1) c)
        + Sigma_bar k row * sigmaV
        + z_bar k row), fun k row => ?_⟩
    rw [dynamicsConstraint, dynamicsRowExpr]
    ring

/-- Modelled from the spec: the guarded derivative evaluation demanded by
sections 4.1 and 7 (and absent from src/src/main.cpp): if the state-transition
matrix block is singular the inversion fails explicitly, classified as a
LinearizationFailure (here: the value none), instead of producing blocks. -/
def derivGuarded {n m : ℕ} (md : Model n m) (u_t u_t1 : Fin m → ℝ)
    (sigma dt : ℝ) (V : StateType n m) (t : ℝ) : Option (StateType n m) :=
  if (phiBlock V).det = 0 then none
  else some (DiscretizationODE.deriv md u_t u_t1 sigma dt V t)

/-- A concrete dynamics collaborator with constant nonzero ode and zero
Jacobians, for the singular-Phi counterexample. -/
def constModel : Model 1 1 where
  ode := fun _ _ => fun _ => 1
  state_jacobian := fun _ _ => 0
  control_jacobian := fun _ _ => 0
  init_X := fun _ _ => 0
  init_U := fun _ _ => 0
  total_time_guess := 1

/-- Claim C5 counterexample: at a concrete input whose STM block is singular
(the all-zero augmented state), the guarded behavior demanded by the spec is a
failure, but the code (main.cpp line 65 calls Eigen inverse with no check and
lines 69-74 fill all six blocks unconditionally) still returns derivative
blocks: there is no explicit failure and no LinearizationFailure
classification in the code. -/
theorem phi_singular_failure_cex :
    derivGuarded constModel zeroU zeroU 1 1 zeroV 0 = none
    ∧ DiscretizationODE.deriv constModel zeroU zeroU 1 1 zeroV 0 =
      (fun i c => match c with
        | Col.x => (1 : ℝ)
        | _ => (0 : ℝ) : StateType 1 1) := by
  have hphi : phiBlock zeroV = 0 := by
    ext i j
    simp [phiBlock, zeroV]
  have hdet : (phiBlock zeroV).det = 0 := by
    rw [hphi]
    simp [Matrix.det_fin_one]
  have hinv : (phiBlock zeroV)⁻¹ = 0 :=
    Matrix.nonsing_inv_apply_not_isUnit _ (by rw [hdet]; exact not_isUnit_zero)
  constructor
  · simp [derivGuarded, hdet]
  · funext i c
    cases c <;>
      simp [DiscretizationODE.deriv, constModel, hinv, hphi,
        Matrix.zero_mul, Matrix.mul_zero, Matrix.zero_mulVec]

/-- The six blocks the code produces when the inverse of the STM block is the
zero matrix: state and STM blocks as usual, the four inverse-premultiplied
sensitivity blocks zero. -/
def unguardedBlocks {n m : ℕ} (md : Model n m) (u_t u_t1 : Fin m → ℝ)
    (sigma dt : ℝ) (V : StateType n m) (t : ℝ) : StateType n m := fun i c =>
  match c with
  | Col.x => sigma * md.ode (colX V) (fohControl u_t u_t1 dt t) i
  | Col.phi j => ((sigma • md.state_jacobian (colX V)
      (fohControl u_t u_t1 dt t)) * phiBlock V) i j
  | _ => (0 : ℝ)

/-- Claim C5 amended: if the STM block Phi becomes singular the code does not
fail and nothing is classified or aborted: the derivative function
unconditionally inverts Phi (Eigen inverse, which in the exact-arithmetic
embedding yields the zero matrix on a singular argument; in doubles it yields
non-finite entries) and still returns all six blocks, the four
inverse-premultiplied sensitivity blocks collapsing to zero. -/
theorem phi_singular_unguarded {n m : ℕ} (md : Model n m)
    (u_t u_t1 : Fin m → ℝ) (sigma dt : ℝ) (V : StateType n m) (t : ℝ)
    (h : (phiBlock V).det = 0) :
    derivGuarded md u_t u_t1 sigma dt V t = none
    ∧ DiscretizationODE.deriv md u_t u_t1 sigma dt V t =
      unguardedBlocks md u_t u_t1 sigma dt V t := by
  have hinv : (phiBlock V)⁻¹ = 0 :=
    Matrix.nonsing_inv_apply_not_isUnit _ (by rw [h]; exact not_isUnit_zero)
  constructor
  · simp [derivGuarded, h]
  · funext i c
    cases c <;>
      simp [DiscretizationODE.deriv, unguardedBlocks, hinv,
        Matrix.zero_mul, Matrix.mul_zero, Matrix.zero_mulVec]

theorem phi_singular_unguarded_witness :
    (phiBlock zeroV).det = 0
    ∧ (derivGuarded zeroModel zeroU zeroU 1 1 zeroV 0 = none
      ∧ DiscretizationODE.deriv zeroModel zeroU zeroU 1 1 zeroV 0 =
        unguardedBlocks zeroModel zeroU zeroU 1 1 zeroV 0) := by
  have hdet : (phiBlock zeroV).det = 0 := by
    have hphi : phiBlock zeroV = 0 := by
      ext i j
      simp [phiBlock, zeroV]
    rw [hphi]
    simp [Matrix.det_fin_one]
  exact ⟨hdet, phi_singular_unguarded zeroModel zeroU zeroU 1 1 zeroV 0 hdet⟩

/-- The reference trajectory held by the loop: the matrices X and U of
main.cpp lines 93-94 (trajectory node k is column k) and the scalar sigma of
line 104. -/
structure RefTraj (n m : ℕ) where
  X : ℕ → Fin n → ℝ
  U : ℕ → Fin m → ℝ
  sigma : ℝ

/-- The values read back from the solver after solve_problem (main.cpp lines
276-280 and 298-300). -/
structure Solution (n m : ℕ) where
  X : ℕ → Fin n → ℝ
  U : ℕ → Fin m → ℝ
  sigma : ℝ
  norm2_nu : ℝ
  Delta_sigma : ℝ

/-- The numeric parameter values a solve call reads: the five affine-model
arrays (pointer parameters bound at main.cpp lines 148-162) and the four
sigma-dependent trust-region coefficients (callback parameters of lines
198-201), all evaluated at solve time. -/
structure SolverInput (n m : ℕ) where
  A_bar : ℕ → Matrix (Fin n) (Fin n) ℝ
  B_bar : ℕ → Matrix (Fin n) (Fin m) ℝ
  C_bar : ℕ → Matrix (Fin n) (Fin m) ℝ
  Sigma_bar : ℕ → Fin n → ℝ
  z_bar : ℕ → Fin n → ℝ
  tr1 : ℝ
  tr2 : ℝ
  tr3 : ℝ
  tr4 : ℝ

/-- The parameter values visible to the solver at a solve call, given the
current reference trajectory: the affine models recomputed from it by the
discretization loop, and the trust-region callbacks evaluated at the current
sigma (main.cpp captures sigma by reference, so the callbacks read the live
value at solve time). -/
def mkSolverInput {n m : ℕ} (md : Model n m) (dt : ℝ)
    (steps : ℕ → List (ℝ × ℝ)) (r : RefTraj n m) : SolverInput n m :=
  SolverInput.mk
    (fun k => (discretizeAll md r.X r.U r.sigma dt steps k).A)
    (fun k => (discretizeAll md r.X r.U r.sigma dt steps k).B)
    (fun k => (discretizeAll md r.X r.U r.sigma dt steps k).C)
    (fun k => (discretizeAll md r.X r.U r.sigma dt steps k).Sigma)
    (fun k => (discretizeAll md r.X r.U r.sigma dt steps k).z)
    (sigma_fn1 r.sigma) (sigma_fn2 r.sigma) (sigma_fn3 r.sigma)
    (sigma_fn4 r.sigma)

/-- One outer iteration (main.cpp lines 234-304): recompute the transition
matrices from the current reference, solve, and overwrite every entry of X
and U and the scalar sigma from the solution (lines 276-280), with no
acceptance test. The conic solver is an external collaborator, abstracted as
the function solve. -/
def scStep {n m : ℕ} (md : Model n m) (dt : ℝ) (steps : ℕ → List (ℝ × ℝ))
    (solve : SolverInput n m → Solution n m) (r : RefTraj n m) : RefTraj n m :=
  let sol := solve (mkSolverInput md dt steps r)
  RefTraj.mk sol.X sol.U sol.sigma

/-- `const size_t iterations = 10;` (main.cpp line 233). -/
def iterations : ℕ := 10

/-- The for loop `for(size_t it = 1; it < iterations + 1; it++)` of main.cpp
line 234, as a recursion on the remaining iteration count. -/
def scLoopFrom {n m : ℕ} (step : RefTraj n m → RefTraj n m) :
    ℕ → RefTraj n m → RefTraj n m
  | 0, r => r
  | Nat.succ f, r => scLoopFrom step f (step r)

/-- The whole successive-convexification loop of main.cpp lines 233-304. -/
def scRun {n m : ℕ} (md : Model n m) (dt : ℝ) (steps : ℕ → List (ℝ × ℝ))
    (solve : SolverInput n m → Solution n m) (r0 : RefTraj n m) : RefTraj n m :=
  scLoopFrom (scStep md dt steps solve) iterations r0

/-- The initial reference: `model.initialize<K>(X, U)` and
`sigma = model.total_time_guess()` (main.cpp lines 99 and 104). -/
def initRef {n m : ℕ} (md : Model n m) : RefTraj n m :=
  RefTraj.mk md.init_X md.init_U md.total_time_guess

lemma scLoopFrom_eq_iterate {n m : ℕ} (step : RefTraj n m → RefTraj n m)
    (f : ℕ) (r : RefTraj n m) : scLoopFrom step f r = step^[f] r := by
  induction f generalizing r with
  | zero => rfl
  | succ f ih =>
    rw [Function.iterate_succ_apply]
    exact ih (step r)

/-- Claim C6: the loop performs exactly iterations = 10 linearize-solve-adopt
steps, with no convergence test terminating it early, and each step adopts the
candidate solution unconditionally: the whole of X, U and sigma are overwritten
from the solver output, and the final reference is exactly the candidate
returned by the tenth solve. -/
theorem sc_loop_fixed_iterations_unconditional {n m : ℕ} (md : Model n m)
    (dt : ℝ) (steps : ℕ → List (ℝ × ℝ))
    (solve : SolverInput n m → Solution n m) (r0 : RefTraj n m) :
    iterations = 10
    ∧ scRun md dt steps solve r0 = (scStep md dt steps solve)^[10] r0
    ∧ (∀ r : RefTraj n m,
        (scStep md dt steps solve r).X = (solve (mkSolverInput md dt steps r)).X
        ∧ (scStep md dt steps solve r).U = (solve (mkSolverInput md dt steps r)).U
        ∧ (scStep md dt steps solve r).sigma =
          (solve (mkSolverInput md dt steps r)).sigma)
    ∧ scRun md dt steps solve r0 =
      RefTraj.mk
        (solve (mkSolverInput md dt steps
          ((scStep md dt steps solve)^[9] r0))).X
        (solve (mkSolverInput md dt steps
          ((scStep md dt steps solve)^[9] r0))).U
        (solve (mkSolverInput md dt steps
          ((scStep md dt steps solve)^[9] r0))).sigma := by
  refine ⟨rfl, scLoopFrom_eq_iterate _ _ _, fun r => ⟨rfl, rfl, rfl⟩, ?_⟩
  rw [scRun, scLoopFrom_eq_iterate]
  show (scStep md dt steps solve)^[9 + 1] r0 = _
  rw [Function.iterate_succ_apply']
  rfl

/-- A tensor variable declaration `create_tensor_variable(name, shape)`
(main.cpp lines 120-125; EcosWrapper is not under src/, modelled from
section 6 of the spec). -/
structure TensorVariable where
  name : String
  shape : List ℕ

/-- The compiled problem structure: the declared variables and the counts of
equality constraints, cone constraints and objective terms (the structure,
not the numeric coefficients). -/
structure Problem where
  vars : List TensorVariable
  numEqualities : ℕ
  numCones : ℕ
  numObjTerms : ℕ

/-- The problem structure built once in the solver-setup block of main.cpp
lines 117-220: six named tensor variables, (K-1)*n_states dynamics equalities,
the virtual-control norm cone and the time-trust-region cone, and three
weighted objective terms, plus whatever `model.add_application_constraints`
contributes (abstracted as counts, since the collaborator is external). -/
def setupProblem (n m K applEq applCone applObj : ℕ) : Problem :=
  Problem.mk
    [⟨"X", [n, K]⟩, ⟨"U", [m, K]⟩, ⟨"nu", [n, K - 1]⟩,
     ⟨"norm2_nu", []⟩, ⟨"sigma", []⟩, ⟨"Delta_sigma", []⟩]
    ((K - 1) * n + applEq)
    (2 + applCone)
    (3 + applObj)

/-- The full program state across the outer loop: the compiled problem
structure and the reference trajectory. -/
structure ProgState (n m : ℕ) where
  problem : Problem
  traj : RefTraj n m

/-- One outer iteration acting on the full program state: the solve call
receives the (unchanged) compiled problem and the refreshed numeric
parameters; only the trajectory part of the state is updated. -/
def scStepFull {n m : ℕ} (md : Model n m) (dt : ℝ) (steps : ℕ → List (ℝ × ℝ))
    (solve : Problem → SolverInput n m → Solution n m) (s : ProgState n m) :
    ProgState n m :=
  let sol := solve s.problem (mkSolverInput md dt steps s.traj)
  ProgState.mk s.problem (RefTraj.mk sol.X sol.U sol.sigma)

/-- Claim C8: the problem structure (variable set, constraint topology,
objective terms) is declared and compiled exactly once before the loop; after
any number of outer iterations it is still the structure built at setup, every
solve call receives that same structure, and only the numeric parameter values
(the affine-model arrays and the sigma-dependent trust-region coefficients of
the solver input) change between solves. -/
theorem problem_structure_fixed_across_iterations {n m : ℕ} (md : Model n m)
    (dt : ℝ) (steps : ℕ → List (ℝ × ℝ))
    (solve : Problem → SolverInput n m → Solution n m)
    (K applEq applCone applObj : ℕ) (r0 : RefTraj n m) (i : ℕ) :
    ((scStepFull md dt steps solve)^[i]
        (ProgState.mk (setupProblem n m K applEq applCone applObj) r0)).problem
      = setupProblem n m K applEq applCone applObj
    ∧ ((scStepFull md dt steps solve)^[i]
        (ProgState.mk (setupProblem n m K applEq applCone applObj) r0)).traj
      = (scStep md dt steps
          (solve (setupProblem n m K applEq applCone applObj)))^[i] r0 := by
  induction i with
  | zero => exact ⟨rfl, rfl⟩
  | succ i ih =>
    obtain ⟨hp, ht⟩ := ih
    rw [Function.iterate_succ_apply', Function.iterate_succ_apply']
    constructor
    · show ((scStepFull md dt steps solve) _).problem = _
      simp only [scStepFull]
      exact hp
    · simp only [scStepFull, scStep, hp, ht]

/-- The sigma component of the reference after i outer iterations. -/
def sigmaAt {n m : ℕ} (md : Model n m) (dt : ℝ) (steps : ℕ → List (ℝ × ℝ))
    (solve : SolverInput n m → Solution n m) (r0 : RefTraj n m) (i : ℕ) : ℝ :=
  ((scStep md dt steps solve)^[i] r0).sigma

/-- Claim C9: the reference sigma0 used in the time-trust-region coefficients
at each solve is the flight-time reference current at that solve: the
coefficients of the solver input at iteration i+1 are the four callbacks
evaluated at the sigma after i adoptions, that sigma is total_time_guess when
i = 0, and after each iteration it is the sigma adopted from that solve, never
a stale copy. -/
theorem trust_region_reads_live_sigma {n m : ℕ} (md : Model n m) (dt : ℝ)
    (steps : ℕ → List (ℝ × ℝ)) (solve : SolverInput n m → Solution n m)
    (i : ℕ) :
    ((mkSolverInput md dt steps
        ((scStep md dt steps solve)^[i] (initRef md))).tr1
      = sigma_fn1 (sigmaAt md dt steps solve (initRef md) i)
    ∧ (mkSolverInput md dt steps
        ((scStep md dt steps solve)^[i] (initRef md))).tr2
      = sigma_fn2 (sigmaAt md dt steps solve (initRef md) i)
    ∧ (mkSolverInput md dt steps
        ((scStep md dt steps solve)^[i] (initRef md))).tr3
      = sigma_fn3 (sigmaAt md dt steps solve (initRef md) i)
    ∧ (mkSolverInput md dt steps
        ((scStep md dt steps solve)^[i] (initRef md))).tr4
      = sigma_fn4 (sigmaAt md dt steps solve (initRef md) i))
    ∧ sigmaAt md dt steps solve (initRef md) 0 = md.total_time_guess
    ∧ sigmaAt md dt steps solve (initRef md) (i + 1)
      = (solve (mkSolverInput md dt steps
          ((scStep md dt steps solve)^[i] (initRef md)))).sigma := by
  refine ⟨⟨rfl, rfl, rfl, rfl⟩, rfl, ?_⟩
  rw [sigmaAt, Function.iterate_succ_apply']
  rfl

/-- `constexpr size_t K = 50;` (main.cpp line 83). -/
def K : ℕ := 50

/-- `const double dt = 1 / double(K-1);` (main.cpp line 84). -/
def dt : ℝ := 1 / ((K - 1 : ℕ) : ℝ)

/-- Claim C10: dt = 1/(K-1) with K = 50 fixed at compile time, so dt is
strictly positive and nonzero; hence the divisions t / dt in the
first-order-hold interpolation and alpha computation and the initial step
dt / 10 (main.cpp line 247) are well defined, and for any K >= 2 the interval
width 1/(K-1) is positive, so no division by zero can occur in the
Integrator. -/
theorem dt_positive_no_division_by_zero (K2 : ℕ) (hK2 : 2 ≤ K2) :
    K = 50
    ∧ dt = 1 / 49
    ∧ 0 < dt
    ∧ dt ≠ 0
    ∧ 0 < dt / 10
    ∧ 0 < 1 / (((K2 - 1 : ℕ)) : ℝ) := by
  have hdt : dt = 1 / 49 := by
    rw [dt, K]
    norm_num
  refine ⟨rfl, hdt, by rw [hdt]; norm_num, by rw [hdt]; norm_num,
    by rw [hdt]; norm_num, ?_⟩
  have h1 : 1 ≤ K2 - 1 := by omega
  have h2 : (1 : ℝ) ≤ ((K2 - 1 : ℕ) : ℝ) := by exact_mod_cast h1
  exact one_div_pos.mpr (lt_of_lt_of_le zero_lt_one h2)

theorem dt_positive_no_division_by_zero_witness :
    2 ≤ 2
    ∧ (K = 50
      ∧ dt = 1 / 49
      ∧ 0 < dt
      ∧ dt ≠ 0
      ∧ 0 < dt / 10
      ∧ 0 < 1 / (((2 - 1 : ℕ)) : ℝ)) :=
  ⟨le_refl 2, dt_positive_no_division_by_zero 2 (le_refl 2)⟩
